import Mathlib

/-!
# Verification of the streaming event cursor (`yaml_cursor.hpp`)

This file shallowly embeds `basic_yaml_cursor` from
`src/include/jsoncons_ext/yaml/yaml_cursor.hpp` and settles the frozen claims
about it.  The cursor's own orchestration code (`read_buffer`, `read_next` in
both sink forms, `next`, `read_to`, `check_done`, the constructors and the
throwing wrappers) is translated from the source.  Its external collaborators
(the incremental tokenizer `basic_json_parser`, the source adapters,
`unicons::skip_bom` and the staj visitor plumbing) are not part of the given
source; they are modelled from the specification's interface contracts
(spec §4.1, §6) and marked as such.

Machine loops (`read_next`, `check_done`) are given explicit fuel; a run that
exhausts its fuel returns `none`.
-/

/-- A structural event, as produced while tokenizing (spec glossary: begin/end
container, scalar value). -/
inductive Event where
  | beginSeq : Event
  | endSeq : Event
  | scalar : Char → Event
deriving DecidableEq, Repr

/-- Error taxonomy (spec §7): backend fault, malformed encoding marker,
ill-formed input, unexpected trailing content. -/
inductive Err where
  | sourceError : Err
  | encodingError : Err
  | syntaxError : Err
  | trailingContent : Err
deriving DecidableEq, Repr

/-- Modelled from the spec: the tokenizer's progress through the single
top-level value — still parsing it, just completed it, or fully done
(`done()` true once no top-level values remain, spec §6). -/
inductive Phase where
  | active : Phase
  | completed : Phase
  | done : Phase
deriving DecidableEq, Repr

/-- Modelled from the spec: the tokenizer's grammar-tracking core state —
container nesting depth, phase, and the 1-based line/column diagnostic
position it owns (spec §3 StreamPosition, §6). -/
structure PCore where
  depth : Nat
  phase : Phase
  line : Nat
  col : Nat
deriving DecidableEq, Repr

/-- Modelled from the spec: the single-unit valid leading encoding marker
(spec glossary BOM), rendered as the actual U+FEFF code point. -/
def bomChar : Char := '﻿'

/-- Modelled from the spec: a malformed leading encoding marker, which
`skip_bom` rejects with an `EncodingError` (spec §4.2). -/
def badBomChar : Char := '￾'

/-- Modelled from the spec: one tokenizer step over a single input unit.
The text format is a minimal hierarchical one satisfying the spec's
tokenizer contract: `(` begins a container, `)` ends one, blanks and
newlines are skipped, any other plain unit is a scalar; the top-level
value is a single scalar or a single balanced group. -/
inductive StepOut where
  | skip : PCore → StepOut
  | emit : PCore → Event → StepOut
  | err : Err → StepOut
deriving DecidableEq, Repr

def pstep (p : PCore) (ch : Char) : StepOut :=
  if ch = ' ' then .skip { p with col := p.col + 1 }
  else if ch = '\n' then .skip { p with line := p.line + 1, col := 1 }
  else if ch = '(' then .emit { p with depth := p.depth + 1, col := p.col + 1 } .beginSeq
  else if ch = ')' then
    match p.depth with
    | 0 => .err .syntaxError
    | d + 1 =>
      .emit { p with depth := d, col := p.col + 1,
                     phase := if d = 0 then .completed else p.phase } .endSeq
  else if ch = bomChar ∨ ch = badBomChar then .err .syntaxError
  else .emit { p with col := p.col + 1,
                      phase := if p.depth = 0 then .completed else p.phase } (.scalar ch)

/-- Result of one `parse_some`-style sweep over the buffered chunk. -/
structure ScanRes where
  core : PCore
  rest : List Char
  events : List Event
  err : Option Err
deriving DecidableEq, Repr

/-- Modelled from the spec: the tokenizer consumes as much of the buffered
chunk as possible, emitting events to the sink (spec §4.3 step b).  With
`stopEach = true` the sink is the event cache, which requests a stop at every
event boundary; with `stopEach = false` the sink is an external visitor that
always continues.  The sweep also returns early once the top-level value
completes. -/
def scanChunk (core : PCore) (chunk : List Char) (stopEach : Bool) : ScanRes :=
  match chunk with
  | [] => ⟨core, [], [], none⟩
  | ch :: rest =>
    match pstep core ch with
    | .err e => ⟨core, ch :: rest, [], some e⟩
    | .skip c' => scanChunk c' rest stopEach
    | .emit c' ev =>
      if stopEach ∨ c'.phase ≠ .active then ⟨c', rest, [ev], none⟩
      else
        let r := scanChunk c' rest stopEach
        ⟨r.core, r.rest, ev :: r.events, r.err⟩

/-- Modelled from the spec: the external incremental tokenizer
(`basic_json_parser`), at its interface boundary (spec §6): a buffered input
chunk, the grammar core, and the stop condition raised when the active sink
requests a stop. -/
structure Tokenizer where
  chunk : List Char
  core : PCore
  stopRequested : Bool
deriving DecidableEq, Repr

/-- `update(chunk)`: replaces the current input chunk (spec §6). -/
def Tokenizer.update (t : Tokenizer) (s : List Char) : Tokenizer :=
  { t with chunk := s }

/-- `source_exhausted()`: the last chunk is fully consumed (spec §6). -/
def Tokenizer.source_exhausted (t : Tokenizer) : Bool :=
  t.chunk.isEmpty

/-- `restart()`: clears the stop condition for a new advance (spec §6). -/
def Tokenizer.restart (t : Tokenizer) : Tokenizer :=
  { t with stopRequested := false }

/-- `done()`: no top-level values remain (spec §6). -/
def Tokenizer.done (t : Tokenizer) : Bool :=
  match t.core.phase with
  | .done => true
  | _ => false

/-- `stopped()`: an event boundary was reached and the sink requested a stop,
or parsing is globally done (spec §6). -/
def Tokenizer.stopped (t : Tokenizer) : Bool :=
  t.stopRequested || t.done

/-- `parse_some(sink, err_out)` (spec §6): no-op once stopped; a completed
top-level value transitions to done without consuming input and without an
event (spec §4.3 step 3: the final advance produces no event); otherwise
sweep the buffered chunk. -/
def Tokenizer.parse_some (t : Tokenizer) (stopEach : Bool) :
    Tokenizer × List Event × Option Err :=
  if t.stopped then (t, [], none)
  else
    match t.core.phase with
    | .completed => ({ t with core := { t.core with phase := .done } }, [], none)
    | .done => (t, [], none)
    | .active =>
      let r := scanChunk t.core t.chunk stopEach
      (⟨r.rest, r.core, stopEach && !r.events.isEmpty⟩, r.events, r.err)

/-- Modelled from the spec: the terminal-state scan behind the tokenizer's
`check_done(err_out)` — consume trailing blanks, flag any other remaining
unit as unexpected trailing content (spec §4.4, §7 TrailingContentError). -/
def scanTrailing (core : PCore) : List Char → PCore × List Char × Option Err
  | [] => (core, [], none)
  | ch :: rest =>
    if ch = ' ' then scanTrailing { core with col := core.col + 1 } rest
    else if ch = '\n' then scanTrailing { core with line := core.line + 1, col := 1 } rest
    else (core, ch :: rest, some .trailingContent)

/-- `check_done(err_out)`: validates a clean terminal state (spec §6). -/
def Tokenizer.check_done (t : Tokenizer) : Tokenizer × Option Err :=
  let r := scanTrailing t.core t.chunk
  ({ t with core := r.1, chunk := r.2.1 }, r.2.2)

/-- `line()`: 1-based diagnostic line (spec §6). -/
def Tokenizer.line (t : Tokenizer) : Nat := t.core.line

/-- `column()`: 1-based diagnostic column (spec §6). -/
def Tokenizer.column (t : Tokenizer) : Nat := t.core.col

/-- Modelled from the spec: `unicons::skip_bom` — scan for a leading encoding
marker; a valid marker yields the offset past it, a malformed one an
`EncodingError`, an absent one offset 0 (spec §4.2). -/
def skip_bom : List Char → Except Err Nat
  | [] => .ok 0
  | c :: _ =>
    if c = bomChar then .ok 1
    else if c = badBomChar then .error .encodingError
    else .ok 0

/-- Modelled from the spec: the source adapter (spec §4.1) — the not yet
delivered input units plus an unrecoverable-fault flag. -/
structure SourceState where
  data : List Char
  errorFlag : Bool
deriving DecidableEq, Repr

/-- `read(max_len)`: deliver 0..max_len units and the advanced source
(spec §4.1). -/
def SourceState.read (s : SourceState) (n : Nat) : List Char × SourceState :=
  (s.data.take n, { s with data := s.data.drop n })

/-- `eof()`: permanent exhaustion (spec §4.1). -/
def SourceState.eof (s : SourceState) : Bool := s.data.isEmpty

/-- `is_error()`: unrecoverable backend fault (spec §4.1). -/
def SourceState.is_error (s : SourceState) : Bool := s.errorFlag

/-- The cursor state: translation of `basic_yaml_cursor`'s data members
(`source_`, `parser_`, `cursor_visitor_`'s cached event, `buffer_`,
`buffer_length_`, `eof_`, `begin_`). -/
structure YamlCursor where
  source : SourceState
  parser : Tokenizer
  cached : Option Event
  buffer : List Char
  buffer_length_ : Nat
  eof_ : Bool
  begin_ : Bool
deriving DecidableEq, Repr

/-- `buffer_length()` (source lines 193–196). -/
def YamlCursor.buffer_length (c : YamlCursor) : Nat := c.buffer_length_

/-- `buffer_length(length)` (source lines 198–202); the `reserve` call only
touches capacity, so the model records just the new length. -/
def YamlCursor.set_buffer_length (c : YamlCursor) (n : Nat) : YamlCursor :=
  { c with buffer_length_ := n }

/-- `done()` (source lines 204–207). -/
def YamlCursor.done (c : YamlCursor) : Bool := c.parser.done

/-- `current()` (source lines 209–212): the cached event. -/
def YamlCursor.current (c : YamlCursor) : Option Event := c.cached

/-- `eof()` (source lines 328–331). -/
def YamlCursor.eof (c : YamlCursor) : Bool := c.eof_

/-- `line()` (source lines 333–336). -/
def YamlCursor.line (c : YamlCursor) : Nat := c.parser.line

/-- `column()` (source lines 338–341). -/
def YamlCursor.column (c : YamlCursor) : Nat := c.parser.column

/-- `read_buffer(ec)` (source lines 248–274): clear and refill the buffer from
the source, set `eof_` on an empty read, scan the first chunk once for an
encoding marker, and hand the (possibly offset) chunk to the tokenizer. -/
def YamlCursor.read_buffer (c : YamlCursor) : YamlCursor × Option Err :=
  let r := c.source.read c.buffer_length_
  let c1 := { c with buffer := r.1, source := r.2 }
  if c1.buffer.isEmpty then ({ c1 with eof_ := true }, none)
  else if c1.begin_ then
    match skip_bom c1.buffer with
    | .error e => (c1, some e)
    | .ok off =>
      ({ c1 with parser := c1.parser.update (c1.buffer.drop off), begin_ := false }, none)
  else ({ c1 with parser := c1.parser.update c1.buffer }, none)

/-- The refill-or-eof prelude shared by the stepping loops (source lines
362–373 and 384–395): if the tokenizer's buffered input is exhausted, refill
when the source is not at eof, else set the eof flag. -/
def YamlCursor.fillStep (c : YamlCursor) : YamlCursor × Option Err :=
  if c.parser.source_exhausted then
    if !c.source.eof then c.read_buffer
    else ({ c with eof_ := true }, none)
  else (c, none)

/-- The stepping loop shared by `read_next(ec)` (source lines 357–377, cache
sink, `stopEach = true`) and `read_next(visitor, ec)` (source lines 379–399,
external sink, `stopEach = false`): while the tokenizer is not stopped,
refill if needed and let it consume buffered input; any error halts the loop
immediately.  Fuel-indexed; `none` means the fuel ran out. -/
def YamlCursor.read_next_loop :
    Nat → YamlCursor → Bool → Option (YamlCursor × List Event × Option Err)
  | 0, _, _ => none
  | f + 1, c, stopEach =>
    if c.parser.stopped then some (c, [], none)
    else
      match c.fillStep with
      | (c1, some e) => some (c1, [], some e)
      | (c1, none) =>
        match c1.parser.parse_some stopEach with
        | (p2, evs1, some e) => some ({ c1 with parser := p2 }, evs1, some e)
        | (p2, evs1, none) =>
          match read_next_loop f { c1 with parser := p2 } stopEach with
          | none => none
          | some (c3, evs, res) => some (c3, evs1 ++ evs, res)

/-- `read_next(ec)` (source lines 357–377): restart the tokenizer, run the
loop with the event cache as sink, and store each delivered event in the
cache (each one overwrites the previous). -/
def YamlCursor.read_next_ec (f : Nat) (c : YamlCursor) :
    Option (YamlCursor × Option Err) :=
  match YamlCursor.read_next_loop f { c with parser := c.parser.restart } true with
  | none => none
  | some (c', evs, res) =>
    some ({ c' with cached := evs.foldl (fun _ e => some e) c'.cached }, res)

/-- `next(ec)` (source lines 243–246): delegates to `read_next(ec)`. -/
def YamlCursor.next_ec (f : Nat) (c : YamlCursor) : Option (YamlCursor × Option Err) :=
  c.read_next_ec f

/-- `read_next(visitor, ec)` (source lines 379–399): the same loop with the
external visitor as the direct sink; the event cache is not touched.  The
returned list is the sequence the visitor received. -/
def YamlCursor.read_next_visitor (f : Nat) (c : YamlCursor) :
    Option (YamlCursor × List Event × Option Err) :=
  YamlCursor.read_next_loop f { c with parser := c.parser.restart } false

/-- `read_to(visitor, ec)` (source lines 224–231).  Modelled from the spec:
`staj_to_saj_event` replays the cached current event into the external
visitor and reports whether to continue; a recording visitor always
continues, so the drained events follow the replayed one. -/
def YamlCursor.read_to_ec (f : Nat) (c : YamlCursor) :
    Option (YamlCursor × List Event × Option Err) :=
  match c.read_next_visitor f with
  | none => none
  | some (c', evs, res) => some (c', c.cached.toList ++ evs, res)

/-- The inner `while (!eof_)` loop of `check_done(ec)` (source lines
303–324): refill or set eof when the tokenizer's input is exhausted, and
whenever the cursor is still not at eof ask the tokenizer to validate its
terminal state. -/
def YamlCursor.check_done_loop :
    Nat → YamlCursor → Option (YamlCursor × Option Err)
  | 0, _ => none
  | f + 1, c =>
    if c.eof_ then some (c, none)
    else
      match c.fillStep with
      | (c1, some e) => some (c1, some e)
      | (c1, none) =>
        if c1.eof_ then check_done_loop f c1
        else
          match c1.parser.check_done with
          | (p2, some e) => some ({ c1 with parser := p2 }, some e)
          | (p2, none) => check_done_loop f { c1 with parser := p2 }

/-- `check_done(ec)` (source lines 291–326): fail at once on a source error;
if already at eof delegate to the tokenizer's terminal check; otherwise run
the refill/validate loop. -/
def YamlCursor.check_done_ec (f : Nat) (c : YamlCursor) :
    Option (YamlCursor × Option Err) :=
  if c.source.is_error then some (c, some .sourceError)
  else if c.eof_ then
    let pr := c.parser.check_done
    some ({ c with parser := pr.1 }, pr.2)
  else c.check_done_loop f

/-- A structured error as thrown by `JSONCONS_THROW(ser_error(ec, line,
column))`: the error code plus the diagnostic position. -/
structure SerErr where
  code : Err
  line : Nat
  col : Nat
deriving DecidableEq, Repr

/-- Throwing `next()` (source lines 233–241): invoke the non-throwing form
and, on a non-zero code, raise a structured error carrying the code and the
current line/column. -/
def YamlCursor.next_throwing (f : Nat) (c : YamlCursor) :
    Option (YamlCursor × Option SerErr) :=
  match c.next_ec f with
  | none => none
  | some (c', res) =>
    some (c', res.map fun e => ⟨e, c'.parser.line, c'.parser.column⟩)

/-- Throwing `read_to(visitor)` (source lines 214–222): same wrapping. -/
def YamlCursor.read_to_throwing (f : Nat) (c : YamlCursor) :
    Option (YamlCursor × List Event × Option SerErr) :=
  match c.read_to_ec f with
  | none => none
  | some (c', evs, res) =>
    some (c', evs, res.map fun e => ⟨e, c'.parser.line, c'.parser.column⟩)

/-- Throwing `check_done()` (source lines 276–284): same wrapping. -/
def YamlCursor.check_done_throwing (f : Nat) (c : YamlCursor) :
    Option (YamlCursor × Option SerErr) :=
  match c.check_done_ec f with
  | none => none
  | some (c', res) =>
    some (c', res.map fun e => ⟨e, c'.parser.line, c'.parser.column⟩)

/-- The tokenizer's initial core: depth 0, active, position 1:1. -/
def initCore : PCore := ⟨0, .active, 1, 1⟩

/-- A freshly constructed tokenizer with no buffered input. -/
def initTok : Tokenizer := ⟨[], initCore, false⟩

/-- `default_max_buffer_length` (source line 38). -/
def default_max_buffer_length : Nat := 16384

/-- The incremental-stream constructor's member initialization (source lines
142–162, before the priming `next(ec)`): own the source, default buffer
length (here a parameter so reconfigured lengths can be studied), empty
buffer, `eof_ = false`, `begin_ = true`. -/
def stream_cursor_init (s : List Char) (n : Nat) : YamlCursor :=
  { source := ⟨s, false⟩, parser := initTok, cached := none,
    buffer := [], buffer_length_ := n, eof_ := false, begin_ := true }

/-- The full incremental-stream error-code constructor (source lines
142–162): initialize with the default buffer length, then prime the first
event with `next(ec)` unless already done. -/
def stream_cursor_ec (f : Nat) (s : List Char) : Option (YamlCursor × Option Err) :=
  let c := stream_cursor_init s default_max_buffer_length
  if c.done then some (c, none) else c.next_ec f

/-- The fixed-slice error-code constructor's body before priming (source
lines 164–191): buffer length 0, `begin_ = false`, scan the materialized
slice for an encoding marker directly and hand the offset slice to the
tokenizer; a malformed marker sets the error code and returns. -/
def fixed_cursor_init (s : List Char) : YamlCursor × Option Err :=
  let base : YamlCursor :=
    { source := ⟨[], false⟩, parser := initTok, cached := none,
      buffer := [], buffer_length_ := 0, eof_ := false, begin_ := false }
  match skip_bom s with
  | .error e => (base, some e)
  | .ok off => ({ base with parser := base.parser.update (s.drop off) }, none)

/-- The full fixed-slice error-code constructor (source lines 164–191):
initialization plus the priming `next(ec)`. -/
def fixed_cursor_ec (f : Nat) (s : List Char) : Option (YamlCursor × Option Err) :=
  match fixed_cursor_init s with
  | (c, some e) => some (c, some e)
  | (c, none) => if c.done then some (c, none) else c.next_ec f

/-- Repeated pull-mode consumption: while not done, record `current()` and
call `next(ec)`; the outer fuel bounds the iterations, the inner fuel each
`next`. -/
def pullRun : Nat → Nat → YamlCursor → Option (List Event × YamlCursor × Option Err)
  | 0, _, _ => none
  | f + 1, g, c =>
    if c.done then some ([], c, none)
    else
      match c.next_ec g with
      | none => none
      | some (c', some e) => some (c.cached.toList, c', some e)
      | some (c', none) =>
        match pullRun f g c' with
        | none => none
        | some (evs, c'', res) => some (c.cached.toList ++ evs, c'', res)

/-- Reference semantics: the event sequence and first error of a straight,
chunking-free parse of a character sequence from a given tokenizer core.
Emission stops once the top-level value has completed. -/
def specRun : PCore → List Char → List Event × Option Err
  | _, [] => ([], none)
  | core, ch :: rest =>
    match core.phase with
    | .active =>
      (match pstep core ch with
       | .err e => ([], some e)
       | .skip c' => specRun c' rest
       | .emit c' ev =>
         let r := specRun c' rest
         (ev :: r.1, r.2))
    | _ => ([], none)

/-- The events and first error a cursor state still owes: for a pre-detection
state, the marker scan applied to the pending source data; otherwise the
straight parse of the unconsumed chunk followed by the pending source data. -/
def cursorSpec (c : YamlCursor) : List Event × Option Err :=
  if c.begin_ then
    match skip_bom c.source.data with
    | .error e => ([], some e)
    | .ok off => specRun c.parser.core (c.source.data.drop off)
  else specRun c.parser.core (c.parser.chunk ++ c.source.data)

/-- The full pipeline behind the spec's trailing-content property: construct
an incremental-stream cursor, pull until done, then verify full consumption,
reporting the final error code (or `none` when the whole pipeline ran). -/
def runAndCheck (s : List Char) : Option (Option Err) :=
  match stream_cursor_ec 32 s with
  | some (c, none) =>
    (match pullRun 32 32 c with
     | some (_, c', none) => (c'.check_done_ec 32).map (fun p => p.2)
     | _ => none)
  | _ => none

/-- What one run of the stepping loop guarantees: on success the delivered
events are a prefix of the owed reference events with the rest still owed by
the final state; on failure the owed outcome is exactly the delivered events
plus that error; a cache sink gets at most one event. -/
def LoopOut (b : Bool) (c c' : YamlCursor) (evs : List Event) (r : Option Err) : Prop :=
  (r = none → cursorSpec c = (evs ++ (cursorSpec c').1, (cursorSpec c').2) ∧
     (c'.begin_ = true → c'.parser.chunk = []) ∧
     c'.parser.stopped = true ∧
     (c'.parser.stopRequested = true → evs ≠ []) ∧
     (b = false → c'.parser.stopRequested = false) ∧
     (b = true → evs ≠ [] → c'.parser.done = false))
  ∧ (∀ e, r = some e → cursorSpec c = (evs, some e))
  ∧ (b = true → evs.length ≤ 1)

/-! ## Basic lemmas about the tokenizer model -/

theorem pstep_skip_phase {p : PCore} {ch : Char} {q : PCore}
    (h : pstep p ch = .skip q) : q.phase = p.phase := by
  unfold pstep at h
  repeat' split at h
  all_goals simp_all
  all_goals (cases h; rfl)

theorem pstep_emit_phase {p : PCore} {ch : Char} {q : PCore} {ev : Event}
    (hp : p.phase = .active) (h : pstep p ch = .emit q ev) : q.phase ≠ .done := by
  unfold pstep at h
  repeat' split at h
  all_goals try (exfalso; exact StepOut.noConfusion h)
  all_goals injection h with h1 h2
  all_goals subst h1
  all_goals simp only [hp]
  all_goals try simp

theorem specRun_nonactive (core : PCore) (chars : List Char)
    (h : core.phase ≠ .active) : specRun core chars = ([], none) := by
  cases chars with
  | nil => rfl
  | cons ch rest =>
    unfold specRun
    cases hp : core.phase with
    | active => exact absurd hp h
    | completed => rfl
    | done => rfl

theorem specRun_active_cons (core : PCore) (ch : Char) (rest : List Char)
    (h : core.phase = .active) :
    specRun core (ch :: rest) =
      (match pstep core ch with
       | .err e => ([], some e)
       | .skip c' => specRun c' rest
       | .emit c' ev => (ev :: (specRun c' rest).1, (specRun c' rest).2)) := by
  simp only [specRun, h]

/-- Soundness of one `parse_some` sweep against the straight reference parse:
the sweep's events are exactly the next events of the reference run, the
leftover chunk continues the reference run, an error agrees with the
reference run's error, the sweep never reaches the terminal phase by itself,
and a cache sink receives at most one event. -/
theorem scanChunk_sound (b : Bool) (rest : List Char) :
    ∀ (chunk : List Char) (core : PCore), core.phase = .active →
      (specRun core (chunk ++ rest) =
        ((scanChunk core chunk b).events ++
           (specRun (scanChunk core chunk b).core ((scanChunk core chunk b).rest ++ rest)).1,
         (specRun (scanChunk core chunk b).core ((scanChunk core chunk b).rest ++ rest)).2))
      ∧ ((scanChunk core chunk b).err.isSome →
           specRun (scanChunk core chunk b).core ((scanChunk core chunk b).rest ++ rest) =
             ([], (scanChunk core chunk b).err))
      ∧ (scanChunk core chunk b).core.phase ≠ .done
      ∧ (b = true → (scanChunk core chunk b).events.length ≤ 1) := by
  intro chunk
  induction chunk with
  | nil =>
    intro core h
    refine ⟨by simp [scanChunk], by simp [scanChunk], ?_, by simp [scanChunk]⟩
    simp [scanChunk, h]
  | cons ch tl ih =>
    intro core h
    have hspec := specRun_active_cons core ch (tl ++ rest) h
    rcases hps : pstep core ch with q | ⟨q, ev⟩ | e
    · -- skip step
      have hph : q.phase = .active := by rw [pstep_skip_phase hps, h]
      have hsc : scanChunk core (ch :: tl) b = scanChunk q tl b := by
        simp [scanChunk, hps]
      have := ih q hph
      rw [List.cons_append, hspec, hps, hsc]
      exact this
    · -- emit step
      have hnd : q.phase ≠ .done := pstep_emit_phase h hps
      by_cases hstop : (b = true) ∨ q.phase ≠ Phase.active
      · have hsc : scanChunk core (ch :: tl) b = ⟨q, tl, [ev], none⟩ := by
          simp only [scanChunk, hps]
          rw [if_pos hstop]
        rw [List.cons_append, hspec, hps, hsc]
        refine ⟨by simp, by simp, hnd, by simp⟩
      · push_neg at hstop
        have hb : ¬ (b = true) := hstop.1
        have hph : q.phase = Phase.active := hstop.2
        have ihq := ih q hph
        have hcond : ¬ ((b = true) ∨ q.phase ≠ Phase.active) := by
          push_neg
          exact ⟨hb, hph⟩
        have hsc : scanChunk core (ch :: tl) b =
            ⟨(scanChunk q tl b).core, (scanChunk q tl b).rest,
             ev :: (scanChunk q tl b).events, (scanChunk q tl b).err⟩ := by
          simp only [scanChunk, hps]
          rw [if_neg hcond]
        have e1 : specRun core ((ch :: tl) ++ rest) =
            (ev :: (specRun q (tl ++ rest)).1, (specRun q (tl ++ rest)).2) := by
          rw [List.cons_append, hspec, hps]
        rw [e1, hsc]
        refine ⟨?_, ihq.2.1, ihq.2.2.1, fun hbt => absurd hbt hb⟩
        simp only [ihq.1]
        simp
    · -- error step
      have hsc : scanChunk core (ch :: tl) b = ⟨core, ch :: tl, [], some e⟩ := by
        simp [scanChunk, hps]
      have hrun : specRun core ((ch :: tl) ++ rest) = ([], some e) := by
        rw [List.cons_append, hspec, hps]
      rw [hsc]
      refine ⟨?_, fun _ => hrun, by simp [h], by simp⟩
      simp [hrun]

/-- Closed-form characterization of one refill (source lines 248–274). -/
theorem read_buffer_eq (c : YamlCursor) :
    c.read_buffer =
      (let taken := c.source.data.take c.buffer_length_
       let c1 : YamlCursor :=
         { c with buffer := taken,
                  source := ⟨c.source.data.drop c.buffer_length_, c.source.errorFlag⟩ }
       if taken.isEmpty then ({ c1 with eof_ := true }, none)
       else if c.begin_ then
         match skip_bom taken with
         | .error e => (c1, some e)
         | .ok off =>
           ({ c1 with parser := c1.parser.update (taken.drop off), begin_ := false }, none)
       else ({ c1 with parser := c1.parser.update taken }, none)) := rfl

/-- `cursorSpec` only reads the detection flag, the pending source data and
the tokenizer's core and chunk. -/
theorem cursorSpec_congr (c c' : YamlCursor) (h1 : c'.begin_ = c.begin_)
    (h2 : c'.source.data = c.source.data) (h3 : c'.parser.core = c.parser.core)
    (h4 : c'.parser.chunk = c.parser.chunk) : cursorSpec c' = cursorSpec c := by
  unfold cursorSpec
  rw [h1, h2, h3, h4]

/-- The refill-or-eof prelude preserves the owed events and errors, the
tokenizer core and stop condition, and the empty-chunk invariant of the
detection flag; when it fails, the owed outcome is exactly that error. -/
theorem fillStep_sound (c : YamlCursor) (hinv : c.begin_ = true → c.parser.chunk = []) :
    ∀ c1 r, c.fillStep = (c1, r) →
      (r = none → cursorSpec c1 = cursorSpec c ∧ c1.parser.core = c.parser.core ∧
         c1.parser.stopRequested = c.parser.stopRequested ∧
         (c1.begin_ = true → c1.parser.chunk = []))
      ∧ (∀ e, r = some e →
         cursorSpec c = ([], some e) ∧ c1.begin_ = c.begin_ ∧ c1.parser = c.parser) := by
  unfold YamlCursor.fillStep
  by_cases hex : c.parser.source_exhausted
  · have hchunk : c.parser.chunk = [] := by
      simpa [Tokenizer.source_exhausted, List.isEmpty_iff] using hex
    rw [if_pos hex]
    by_cases heof : c.source.eof
    · simp only [heof, Bool.not_true, Bool.false_eq_true, reduceIte]
      intro c1 r h1
      cases h1
      refine ⟨fun _ => ⟨cursorSpec_congr _ _ rfl rfl rfl rfl, rfl, rfl, fun hb => hchunk⟩, ?_⟩
      intro e hr
      exact Option.noConfusion hr
    · have hdata : c.source.data ≠ [] := by
        simpa [SourceState.eof, List.isEmpty_iff] using heof
      simp only [heof, Bool.not_false, if_pos rfl, read_buffer_eq]
      rcases hds : c.source.data with _ | ⟨d, t⟩
      · exact absurd hds hdata
      rcases hn : c.buffer_length_ with _ | m
      · -- zero-length refill: empty read, eof flag set, nothing handed over
        simp only [List.take_zero, List.drop_zero, List.isEmpty_nil, if_pos rfl]
        intro c1 r h1
        cases h1
        refine ⟨fun _ => ⟨?_, rfl, rfl, fun hb => hchunk⟩, fun e hr => Option.noConfusion hr⟩
        exact cursorSpec_congr _ _ rfl (by rw [hds]) rfl rfl
      · -- non-empty read
        simp only [List.take_succ_cons, List.drop_succ_cons, List.isEmpty_cons,
          Bool.false_eq_true, reduceIte]
        by_cases hb : c.begin_
        · rw [if_pos hb]
          rcases hd : skip_bom (d :: t.take m) with e0 | off
          · -- malformed marker: error, flag untouched
            intro c1 r h1
            cases h1
            have hbad : d = badBomChar ∧ e0 = Err.encodingError := by
              simp only [skip_bom] at hd
              by_cases h2 : d = bomChar
              · rw [if_pos h2] at hd
                exact Except.noConfusion hd
              · rw [if_neg h2] at hd
                by_cases h3 : d = badBomChar
                · rw [if_pos h3] at hd
                  injection hd with h4
                  exact ⟨h3, h4.symm⟩
                · rw [if_neg h3] at hd
                  exact Except.noConfusion hd
            refine ⟨fun hr => Option.noConfusion hr, ?_⟩
            intro e hr
            cases hr
            refine ⟨?_, rfl, rfl⟩
            unfold cursorSpec
            rw [if_pos hb, hds, hbad.1]
            simp only [skip_bom]
            rw [if_neg (by decide : ¬ (badBomChar = bomChar))]
            simp [hbad.2]
          · -- valid or absent marker: flag cleared, offset chunk handed over
            intro c1 r h1
            cases h1
            have hoff : (off = 0 ∧ d ≠ bomChar ∧ d ≠ badBomChar) ∨ (off = 1 ∧ d = bomChar) := by
              simp only [skip_bom] at hd
              by_cases h2 : d = bomChar
              · rw [if_pos h2] at hd
                injection hd with h4
                exact Or.inr ⟨h4.symm, h2⟩
              · rw [if_neg h2] at hd
                by_cases h3 : d = badBomChar
                · rw [if_pos h3] at hd
                  exact Except.noConfusion hd
                · rw [if_neg h3] at hd
                  injection hd with h4
                  exact Or.inl ⟨h4.symm, h2, h3⟩
            have hsb : skip_bom c.source.data = .ok off := by
              rw [hds]
              simp only [skip_bom]
              rcases hoff with ⟨h0, h2, h3⟩ | ⟨h1', h2⟩
              · rw [if_neg h2, if_neg h3, h0]
              · rw [if_pos h2, h1']
            refine ⟨fun _ => ⟨?_, rfl, rfl, by simp⟩, fun e hr => Option.noConfusion hr⟩
            unfold cursorSpec
            rw [if_pos hb]
            simp only [Bool.false_eq_true, reduceIte, Tokenizer.update, hsb]
            rcases hoff with ⟨h0, h2, h3⟩ | ⟨h1', h2⟩
            · rw [h0]
              simp only [List.drop_zero, List.cons_append, List.take_append_drop]
              rw [hds]
            · rw [h1']
              simp only [List.drop_one, List.tail_cons, List.take_append_drop]
              rw [hds]
              simp [List.drop_one]
        · rw [if_neg hb]
          simp only [Bool.not_eq_true] at hb
          intro c1 r h1
          cases h1
          refine ⟨fun _ => ⟨?_, rfl, rfl, ?_⟩, fun e hr => Option.noConfusion hr⟩
          · unfold cursorSpec
            rw [hb]
            simp only [Bool.false_eq_true, reduceIte, Tokenizer.update]
            rw [List.cons_append, List.take_append_drop, ← hds, hchunk, List.nil_append]
          · intro h2
            rw [hb] at h2
            exact Bool.noConfusion h2
  · rw [if_neg hex]
    intro c1 r h1
    cases h1
    exact ⟨fun _ => ⟨rfl, rfl, rfl, hinv⟩, fun e hr => Option.noConfusion hr⟩

theorem tok_done_false {t : Tokenizer} (h : t.core.phase ≠ .done) : t.done = false := by
  unfold Tokenizer.done
  cases hp : t.core.phase
  · rfl
  · rfl
  · exact absurd hp h

theorem tok_done_phase {t : Tokenizer} (h : t.done = false) : t.core.phase ≠ .done := by
  intro hp
  unfold Tokenizer.done at h
  rw [hp] at h
  exact Bool.noConfusion h

/-- A stopped tokenizer makes the stepping loop exit at once. -/
theorem read_next_loop_stop_exit (f : Nat) (c : YamlCursor) (b : Bool)
    (h : c.parser.stopped = true) :
    YamlCursor.read_next_loop (f + 1) c b = some (c, [], none) := by
  simp [YamlCursor.read_next_loop, h]

/-- The refill-or-eof prelude never touches the event cache, the configured
length, the source fault flag, nor (at length 0) leaves the buffer nonempty. -/
theorem fillStep_pres (c : YamlCursor) :
    ∀ c1 r, c.fillStep = (c1, r) →
      c1.cached = c.cached ∧ c1.buffer_length_ = c.buffer_length_ ∧
      (c.buffer_length_ = 0 → c.buffer = [] → c1.buffer = []) ∧
      c1.source.errorFlag = c.source.errorFlag := by
  unfold YamlCursor.fillStep
  by_cases hex : c.parser.source_exhausted
  · rw [if_pos hex]
    by_cases heof : c.source.eof
    · simp only [heof, Bool.not_true, Bool.false_eq_true, reduceIte]
      intro c1 r h1
      cases h1
      exact ⟨rfl, rfl, fun _ hb => hb, rfl⟩
    · simp only [heof, Bool.not_false, if_pos rfl, read_buffer_eq]
      by_cases hemp : (c.source.data.take c.buffer_length_).isEmpty
      · rw [if_pos hemp]
        intro c1 r h1
        cases h1
        refine ⟨rfl, rfl, fun h0 _ => ?_, rfl⟩
        rw [h0]
        rfl
      · rw [if_neg hemp]
        by_cases hb : c.begin_
        · rw [if_pos hb]
          rcases hd : skip_bom (c.source.data.take c.buffer_length_) with e0 | off
          · intro c1 r h1
            cases h1
            refine ⟨rfl, rfl, fun h0 _ => ?_, rfl⟩
            rw [h0]
            rfl
          · intro c1 r h1
            cases h1
            refine ⟨rfl, rfl, fun h0 _ => ?_, rfl⟩
            rw [h0]
            rfl
        · rw [if_neg hb]
          intro c1 r h1
          cases h1
          refine ⟨rfl, rfl, fun h0 _ => ?_, rfl⟩
          rw [h0]
          rfl
  · rw [if_neg hex]
    intro c1 r h1
    cases h1
    exact ⟨rfl, rfl, fun _ hb => hb, rfl⟩

/-- The stepping loop never touches the event cache (in visitor mode), the
configured length, the source fault flag, nor (at length 0) the buffer. -/
theorem read_next_loop_pres :
    ∀ (f : Nat) (b : Bool) (c c' : YamlCursor) (evs : List Event) (r : Option Err),
      YamlCursor.read_next_loop f c b = some (c', evs, r) →
      c'.cached = c.cached ∧ c'.buffer_length_ = c.buffer_length_ ∧
      (c.buffer_length_ = 0 → c.buffer = [] → c'.buffer = []) ∧
      c'.source.errorFlag = c.source.errorFlag := by
  intro f
  induction f with
  | zero =>
    intro b c c' evs r h
    exact Option.noConfusion h
  | succ g ih =>
    intro b c c' evs r h
    simp only [YamlCursor.read_next_loop] at h
    split at h
    · cases h
      exact ⟨rfl, rfl, fun _ hb => hb, rfl⟩
    · split at h
      · rename_i c1 e hf
        cases h
        exact fillStep_pres c _ _ hf
      · rename_i c1 hf
        have hfp := fillStep_pres c _ _ hf
        split at h
        · rename_i p2 evs1 e hp
          cases h
          exact ⟨hfp.1, hfp.2.1, hfp.2.2.1, hfp.2.2.2⟩
        · rename_i p2 evs1 hp
          split at h
          · exact Option.noConfusion h
          · rename_i c3 evs3 res hrec
            cases h
            have hih := ih b _ _ _ _ hrec
            refine ⟨hih.1.trans hfp.1, hih.2.1.trans hfp.2.1, ?_, hih.2.2.2.trans hfp.2.2.2⟩
            intro h0 hb
            exact hih.2.2.1 (hfp.2.1 ▸ h0) (hfp.2.2.1 h0 hb)

theorem cursorSpec_nonactive_congr (c1 c2 : YamlCursor)
    (hb : c2.begin_ = c1.begin_) (hd : c2.source.data = c1.source.data)
    (hk : c2.parser.chunk = c1.parser.chunk)
    (h1 : c1.parser.core.phase ≠ .active) (h2 : c2.parser.core.phase ≠ .active) :
    cursorSpec c2 = cursorSpec c1 := by
  unfold cursorSpec
  rw [hb, hd, hk]
  by_cases hbb : c1.begin_ = true
  · simp only [hbb, reduceIte]
    rcases hsb : skip_bom c1.source.data with e | off
    · rfl
    · exact (specRun_nonactive _ _ h2).trans (specRun_nonactive _ _ h1).symm
  · simp only [Bool.not_eq_true] at hbb
    simp only [hbb, Bool.false_eq_true, reduceIte]
    rw [specRun_nonactive _ _ h1, specRun_nonactive _ _ h2]

theorem LoopOut.prepend {b : Bool} {cA cB c' : YamlCursor} {evs1 evs3 : List Event}
    {r : Option Err}
    (h1 : cursorSpec cA = (evs1 ++ (cursorSpec cB).1, (cursorSpec cB).2))
    (h2 : LoopOut b cB c' evs3 r)
    (h3 : b = true → evs1 = []) : LoopOut b cA c' (evs1 ++ evs3) r := by
  refine ⟨?_, ?_, ?_⟩
  · intro hr
    obtain ⟨hA, hB, hC, hD, hE, hF⟩ := h2.1 hr
    refine ⟨?_, hB, hC, ?_, hE, ?_⟩
    · rw [h1, hA]
      simp [List.append_assoc]
    · intro hsrq hcon
      rcases List.append_eq_nil.mp hcon with ⟨h4, h5⟩
      exact hD hsrq h5
    · intro hb hne
      rcases h3 hb
      exact hF hb (by simpa using hne)
  · intro e he
    rw [h1, h2.2.1 e he]
  · intro hb
    rcases h3 hb
    simpa using h2.2.2 hb

/-- Soundness of the stepping loop against the reference semantics. -/
theorem read_next_loop_sound :
    ∀ (f : Nat) (b : Bool) (c c' : YamlCursor) (evs : List Event) (r : Option Err),
      YamlCursor.read_next_loop f c b = some (c', evs, r) →
      c.parser.stopRequested = false →
      (c.begin_ = true → c.parser.chunk = []) →
      LoopOut b c c' evs r := by
  intro f
  induction f with
  | zero =>
    intro b c c' evs r h _ _
    exact Option.noConfusion h
  | succ g ih =>
    intro b c c' evs r h hsr hinv
    simp only [YamlCursor.read_next_loop] at h
    split at h
    · rename_i hst
      cases h
      refine ⟨fun _ => ⟨by simp, hinv, hst, ?_, fun _ => hsr, fun _ h2 => absurd rfl h2⟩,
              fun e he => Option.noConfusion he, fun _ => by simp⟩
      intro h2
      rw [hsr] at h2
      exact Bool.noConfusion h2
    · rename_i hst
      have hst' : c.parser.stopped = false := by simpa using hst
      have hdone : c.parser.done = false := by
        have h2 : (c.parser.stopRequested || c.parser.done) = false := hst'
        rw [hsr] at h2
        simpa using h2
      split at h
      · -- refill failure: halt with the encoding error
        rename_i c1 e hf
        cases h
        have hce := ((fillStep_sound c hinv _ _ hf).2 _ rfl).1
        exact ⟨fun hr => Option.noConfusion hr,
               fun e' he' => by cases he'; exact hce,
               fun _ => by simp⟩
      · rename_i c1 hf
        obtain ⟨hspec1, hcore1, hsr1, hinv1⟩ := (fillStep_sound c hinv c1 none hf).1 rfl
        have hsr1' : c1.parser.stopRequested = false := hsr1.trans hsr
        have hdone1 : c1.parser.done = false := by
          unfold Tokenizer.done
          unfold Tokenizer.done at hdone
          rw [hcore1]
          exact hdone
        have hst1 : c1.parser.stopped = false := by
          unfold Tokenizer.stopped
          rw [hsr1', hdone1]
          rfl
        split at h
        · -- tokenizer failure: halt with events so far plus the error
          rename_i p2 evs1 e hp
          cases h
          unfold Tokenizer.parse_some at hp
          rw [hst1] at hp
          simp only [Bool.false_eq_true, reduceIte] at hp
          split at hp
          · simp at hp
          · simp at hp
          · rename_i hph
            simp only [Prod.mk.injEq] at hp
            obtain ⟨hq1, hq2, hq3⟩ := hp
            have hbeg' : c1.begin_ = false := by
              by_cases hbg : c1.begin_ = true
              · rw [hinv1 hbg] at hq3
                simp [scanChunk] at hq3
              · simpa using hbg
            have hsc := scanChunk_sound b c1.source.data c1.parser.chunk c1.parser.core hph
            have hcs1 : cursorSpec c1 =
                specRun c1.parser.core (c1.parser.chunk ++ c1.source.data) := by
              unfold cursorSpec
              rw [hbeg']
              simp
            have hD := hsc.2.1 (by rw [hq3]; rfl)
            refine ⟨fun hr => Option.noConfusion hr, fun e' he' => ?_, ?_⟩
            · cases he'
              rw [← hspec1, hcs1, hsc.1, hD, hq3]
              rw [← hq2]
              simp
            · intro hbt
              rw [← hq2]
              simpa using hsc.2.2.2 hbt
        · rename_i p2 evs1 hp
          split at h
          · exact Option.noConfusion h
          · rename_i c3 evs3 res hrec
            cases h
            unfold Tokenizer.parse_some at hp
            rw [hst1] at hp
            simp only [Bool.false_eq_true, reduceIte] at hp
            split at hp
            · -- completed top-level value: silent transition to done
              rename_i hph
              simp only [Prod.mk.injEq] at hp
              obtain ⟨hq1, hq2, _⟩ := hp
              subst hq1
              subst hq2
              have hEq2 : cursorSpec { c1 with parser :=
                  { c1.parser with core := { c1.parser.core with phase := .done } } } =
                  cursorSpec c1 := by
                refine cursorSpec_nonactive_congr _ _ rfl rfl rfl ?_ ?_
                · rw [hph]
                  simp
                · simp
              have hIH := ih b _ _ _ _ hrec hsr1' (fun h2 => hinv1 h2)
              have h1 : cursorSpec c =
                  ([] ++ (cursorSpec { c1 with parser :=
                    { c1.parser with core := { c1.parser.core with phase := .done } } }).1,
                   (cursorSpec { c1 with parser :=
                    { c1.parser with core := { c1.parser.core with phase := .done } } }).2) := by
                rw [hEq2, hspec1]
                simp
              exact LoopOut.prepend h1 hIH (fun _ => rfl)
            · -- done phase: contradicts the loop guard
              rename_i hph
              exact absurd hph (tok_done_phase hdone1)
            · -- active phase: a chunk sweep happened
              rename_i hph
              simp only [Prod.mk.injEq] at hp
              obtain ⟨hq1, hq2, hq3⟩ := hp
              subst hq1
              subst hq2
              by_cases hsr2 : (b && !(scanChunk c1.parser.core c1.parser.chunk b).events.isEmpty) = true
              · -- the cache sink requested a stop: recursion exits at once
                have hsr2c := hsr2
                simp only [Bool.and_eq_true] at hsr2c
                obtain ⟨hbt, hne⟩ := hsr2c
                have hbeg' : c1.begin_ = false := by
                  by_cases hbg : c1.begin_ = true
                  · rw [hinv1 hbg] at hne
                    simp [scanChunk] at hne
                  · simpa using hbg
                have hsc := scanChunk_sound b c1.source.data c1.parser.chunk c1.parser.core hph
                have hcs1 : cursorSpec c1 =
                    specRun c1.parser.core (c1.parser.chunk ++ c1.source.data) := by
                  unfold cursorSpec
                  rw [hbeg']
                  simp
                have hstop2 : (Tokenizer.mk
                    (scanChunk c1.parser.core c1.parser.chunk b).rest
                    (scanChunk c1.parser.core c1.parser.chunk b).core
                    (b && !(scanChunk c1.parser.core c1.parser.chunk b).events.isEmpty)).stopped
                    = true := by
                  unfold Tokenizer.stopped
                  rw [hsr2]
                  rfl
                have hc2 : cursorSpec { c1 with parser :=
                    ⟨(scanChunk c1.parser.core c1.parser.chunk b).rest,
                      (scanChunk c1.parser.core c1.parser.chunk b).core,
                      b && !(scanChunk c1.parser.core c1.parser.chunk b).events.isEmpty⟩ } =
                    specRun (scanChunk c1.parser.core c1.parser.chunk b).core
                      ((scanChunk c1.parser.core c1.parser.chunk b).rest ++ c1.source.data) := by
                  unfold cursorSpec
                  simp [hbeg']
                have hevne : (scanChunk c1.parser.core c1.parser.chunk b).events ≠ [] := by
                  intro hcon
                  rw [hcon] at hne
                  simp at hne
                cases g with
                | zero =>
                  simp only [YamlCursor.read_next_loop] at hrec
                  exact Option.noConfusion hrec
                | succ g' =>
                  rw [read_next_loop_stop_exit g' _ b hstop2] at hrec
                  cases hrec
                  refine ⟨fun _ => ⟨?_, fun h2 => absurd h2 (by simp [hbeg']), hstop2, ?_, ?_, ?_⟩,
                          fun e he => Option.noConfusion he, ?_⟩
                  · rw [← hspec1, hcs1, hsc.1, hc2]
                    simp
                  · intro _ hcon
                    rcases List.append_eq_nil.mp hcon with ⟨h4, _⟩
                    exact hevne h4
                  · intro hbf
                    rw [hbf] at hbt
                    exact Bool.noConfusion hbt
                  · intro _ _
                    exact tok_done_false hsc.2.2.1
                  · intro _
                    simpa using hsc.2.2.2 hbt
              · -- the sink continued: recurse with the stop condition clear
                have hsr2' :
                    (b && !(scanChunk c1.parser.core c1.parser.chunk b).events.isEmpty) = false := by
                  simpa using hsr2
                have hIH := ih b _ _ _ _ hrec hsr2' ?invp
                case invp =>
                  intro h2
                  have hch := hinv1 h2
                  show (scanChunk c1.parser.core c1.parser.chunk b).rest = []
                  rw [hch]
                  rfl
                have h3 : b = true → (scanChunk c1.parser.core c1.parser.chunk b).events = [] := by
                  intro hbt
                  cases hie : (scanChunk c1.parser.core c1.parser.chunk b).events.isEmpty with
                  | false =>
                    rw [hie, hbt] at hsr2'
                    simp at hsr2'
                  | true => exact List.isEmpty_iff.mp hie
                by_cases hbg : c1.begin_ = true
                · -- pre-detection: the chunk is empty and the sweep was a no-op
                  have hch := hinv1 hbg
                  have hRR : scanChunk c1.parser.core c1.parser.chunk b =
                      ⟨c1.parser.core, [], [], none⟩ := by
                    rw [hch]
                    rfl
                  have hEq2 : cursorSpec { c1 with parser :=
                      ⟨(scanChunk c1.parser.core c1.parser.chunk b).rest,
                        (scanChunk c1.parser.core c1.parser.chunk b).core,
                        b && !(scanChunk c1.parser.core c1.parser.chunk b).events.isEmpty⟩ } =
                      cursorSpec c1 := by
                    refine cursorSpec_congr _ _ rfl rfl ?_ ?_
                    · show (scanChunk c1.parser.core c1.parser.chunk b).core = c1.parser.core
                      rw [hRR]
                    · show (scanChunk c1.parser.core c1.parser.chunk b).rest = c1.parser.chunk
                      rw [hRR, hch]
                  have h1 : cursorSpec c =
                      ((scanChunk c1.parser.core c1.parser.chunk b).events ++
                        (cursorSpec { c1 with parser :=
                          ⟨(scanChunk c1.parser.core c1.parser.chunk b).rest,
                            (scanChunk c1.parser.core c1.parser.chunk b).core,
                            b && !(scanChunk c1.parser.core c1.parser.chunk b).events.isEmpty⟩ }).1,
                       (cursorSpec { c1 with parser :=
                          ⟨(scanChunk c1.parser.core c1.parser.chunk b).rest,
                            (scanChunk c1.parser.core c1.parser.chunk b).core,
                            b && !(scanChunk c1.parser.core c1.parser.chunk b).events.isEmpty⟩ }).2) := by
                    rw [hEq2, hspec1, hRR]
                    simp
                  exact LoopOut.prepend h1 hIH h3
                · -- detection settled: the sweep follows the reference parse
                  have hbeg' : c1.begin_ = false := by simpa using hbg
                  have hsc := scanChunk_sound b c1.source.data c1.parser.chunk c1.parser.core hph
                  have hcs1 : cursorSpec c1 =
                      specRun c1.parser.core (c1.parser.chunk ++ c1.source.data) := by
                    unfold cursorSpec
                    rw [hbeg']
                    simp
                  have hc2 : cursorSpec { c1 with parser :=
                      ⟨(scanChunk c1.parser.core c1.parser.chunk b).rest,
                        (scanChunk c1.parser.core c1.parser.chunk b).core,
                        b && !(scanChunk c1.parser.core c1.parser.chunk b).events.isEmpty⟩ } =
                      specRun (scanChunk c1.parser.core c1.parser.chunk b).core
                        ((scanChunk c1.parser.core c1.parser.chunk b).rest ++ c1.source.data) := by
                    unfold cursorSpec
                    simp [hbeg']
                  have h1 : cursorSpec c =
                      ((scanChunk c1.parser.core c1.parser.chunk b).events ++
                        (cursorSpec { c1 with parser :=
                          ⟨(scanChunk c1.parser.core c1.parser.chunk b).rest,
                            (scanChunk c1.parser.core c1.parser.chunk b).core,
                            b && !(scanChunk c1.parser.core c1.parser.chunk b).events.isEmpty⟩ }).1,
                       (cursorSpec { c1 with parser :=
                          ⟨(scanChunk c1.parser.core c1.parser.chunk b).rest,
                            (scanChunk c1.parser.core c1.parser.chunk b).core,
                            b && !(scanChunk c1.parser.core c1.parser.chunk b).events.isEmpty⟩ }).2) := by
                    rw [hc2, ← hspec1, hcs1, hsc.1]
                  exact LoopOut.prepend h1 hIH h3

theorem cursorSpec_restart (c : YamlCursor) :
    cursorSpec { c with parser := c.parser.restart } = cursorSpec c := rfl

theorem cursorSpec_done_nil {c : YamlCursor} (h : c.parser.done = true) :
    (cursorSpec c).1 = [] := by
  have hph : c.parser.core.phase = .done := by
    unfold Tokenizer.done at h
    rcases hp : c.parser.core.phase with _ | _ | _
    · rw [hp] at h
      exact Bool.noConfusion h
    · rw [hp] at h
      exact Bool.noConfusion h
    · rfl
  have hna : c.parser.core.phase ≠ .active := by
    rw [hph]
    simp
  unfold cursorSpec
  by_cases hb : c.begin_ = true
  · simp only [hb, reduceIte]
    rcases hsb : skip_bom c.source.data with e | off
    · rfl
    · simp [specRun_nonactive _ _ hna]
  · simp only [Bool.not_eq_true] at hb
    simp only [hb, Bool.false_eq_true, reduceIte]
    simp [specRun_nonactive _ _ hna]

/-- A successful full drain through an external visitor delivers exactly the
events the state still owed. -/
theorem drain_events (f : Nat) (c c' : YamlCursor) (evs : List Event)
    (h : c.read_next_visitor f = some (c', evs, none))
    (hinv : c.begin_ = true → c.parser.chunk = []) :
    evs = (cursorSpec c).1 := by
  unfold YamlCursor.read_next_visitor at h
  have hL := read_next_loop_sound f false _ c' evs none h rfl hinv
  obtain ⟨hA, hB, hC, hD, hE, hF⟩ := hL.1 rfl
  have hdone' : c'.parser.done = true := by
    have hsr' := hE rfl
    have hstp := hC
    unfold Tokenizer.stopped at hstp
    rw [hsr'] at hstp
    simpa using hstp
  have hnil := cursorSpec_done_nil hdone'
  have heq : cursorSpec c = (evs ++ (cursorSpec c').1, (cursorSpec c').2) := by
    rw [← cursorSpec_restart c]
    exact hA
  rw [heq]
  simp [hnil]

/-- A successful `read_to` delivers the replayed cached event followed by
exactly the owed events. -/
theorem read_to_events (f : Nat) (c c' : YamlCursor) (evs : List Event)
    (h : c.read_to_ec f = some (c', evs, none))
    (hinv : c.begin_ = true → c.parser.chunk = []) :
    evs = c.cached.toList ++ (cursorSpec c).1 := by
  unfold YamlCursor.read_to_ec at h
  split at h
  · exact Option.noConfusion h
  · rename_i cv evsv rv hv
    simp only [Option.some.injEq, Prod.mk.injEq] at h
    obtain ⟨h1, h2, h3⟩ := h
    subst h3
    rw [← h2, drain_events f c cv evsv hv hinv]

/-- A successful pull-mode run records the cached current event and then
exactly the owed events (or nothing at all when already done). -/
theorem pullRun_events :
    ∀ (f g : Nat) (c c'' : YamlCursor) (evs : List Event),
      pullRun f g c = some (evs, c'', none) →
      (c.begin_ = true → c.parser.chunk = []) →
      evs = (if c.done = true then [] else c.cached.toList ++ (cursorSpec c).1) := by
  intro f
  induction f with
  | zero =>
    intro g c c'' evs h _
    exact Option.noConfusion h
  | succ f' ih =>
    intro g c c'' evs h hinv
    simp only [pullRun] at h
    split at h
    · rename_i hdn
      cases h
      rw [if_pos hdn]
    · rename_i hdn
      have hdn' : c.done = false := by simpa using hdn
      rw [if_neg (by rw [hdn']; simp : ¬ (c.done = true))]
      split at h
      · exact Option.noConfusion h
      · rename_i c₁ e hne
        simp at h
      · rename_i c₁ hne
        split at h
        · exact Option.noConfusion h
        · rename_i evs2 c₂ res hrec
          simp only [Option.some.injEq, Prod.mk.injEq] at h
          obtain ⟨hevs, hc₂, hres⟩ := h
          subst hres
          subst hevs
          -- dissect the successful advance
          unfold YamlCursor.next_ec YamlCursor.read_next_ec at hne
          split at hne
          · exact Option.noConfusion hne
          · rename_i cL evsL rL hloop
            simp only [Option.some.injEq, Prod.mk.injEq] at hne
            obtain ⟨hc₁, hrL⟩ := hne
            subst hrL
            subst hc₁
            have hpres := read_next_loop_pres g true _ cL evsL none hloop
            have hL := read_next_loop_sound g true _ cL evsL none hloop rfl hinv
            obtain ⟨hA, hB, hC, hD, hE, hF⟩ := hL.1 rfl
            have hlen := hL.2.2 rfl
            have heq : cursorSpec c = (evsL ++ (cursorSpec cL).1, (cursorSpec cL).2) := by
              rw [← cursorSpec_restart c]
              exact hA
            have hcached : cL.cached = c.cached := by
              have := hpres.1
              simpa using this
            rcases evsL with _ | ⟨ev, evtl⟩
            · -- no event: the final silent transition to done
              have hsr' : cL.parser.stopRequested = false := by
                cases hsrc : cL.parser.stopRequested
                · rfl
                · exact absurd rfl (hD hsrc)
              have hdoneL : cL.parser.done = true := by
                have hstp := hC
                unfold Tokenizer.stopped at hstp
                rw [hsr'] at hstp
                simpa using hstp
              have hrecev := ih g _ _ _ hrec (fun h2 => hB h2)
              have hdone1 : ({ cL with cached := List.foldl (fun _ e => some e) cL.cached [] }).done
                  = true := hdoneL
              rw [if_pos hdone1] at hrecev
              subst hrecev
              have hnil := cursorSpec_done_nil hdoneL
              rw [heq]
              simp [hcached, hnil]
            · rcases evtl with _ | ⟨ev2, evtl2⟩
              · -- exactly one event was pulled into the cache
                have hdoneL : cL.parser.done = false := hF rfl (by simp)
                have hrecev := ih g _ _ _ hrec (fun h2 => hB h2)
                have hdone1 : ({ cL with cached := List.foldl (fun _ e => some e) cL.cached [ev] }).done
                    = false := hdoneL
                rw [if_neg (by rw [hdone1]; simp)] at hrecev
                subst hrecev
                have hcc : cursorSpec { cL with cached := List.foldl (fun _ e => some e) cL.cached [ev] } =
                    cursorSpec cL := cursorSpec_congr _ _ rfl rfl rfl rfl
                rw [heq, hcc]
                simp [hcached]
              · simp at hlen

theorem cursorSpec_stream_init (s : List Char) (n : Nat) :
    cursorSpec (stream_cursor_init s n) =
      (match skip_bom s with
       | .error e => ([], some e)
       | .ok off => specRun initCore (s.drop off)) := rfl

/-- C1: For every well-formed input, the Event sequence obtained by repeated
pull-mode consumption (reading `current()` then calling `next()` until done)
equals the Event sequence delivered to an external visitor by one
`read_to()`/drain call started from the same initial cursor state, with no
Event lost or duplicated. -/
theorem pull_drain_agree (f g k : Nat) (c c₁ c₂ : YamlCursor)
    (evs₁ evs₂ : List Event)
    (hinv : c.begin_ = true → c.parser.chunk = [])
    (hnd : c.done = false)
    (hpull : pullRun f g c = some (evs₁, c₁, none))
    (hpush : c.read_to_ec k = some (c₂, evs₂, none)) :
    evs₁ = evs₂ := by
  have h1 := pullRun_events f g c c₁ evs₁ hpull hinv
  rw [if_neg (by rw [hnd]; simp : ¬ (c.done = true))] at h1
  have h2 := read_to_events k c c₂ evs₂ hpush hinv
  rw [h1, h2]


/-- Witness for C1: a cursor mid-way through `(a)` with `beginSeq` cached. -/
theorem pull_drain_agree_witness :
    pullRun 20 20
        ⟨⟨[], false⟩, ⟨['a', ')'], ⟨1, .active, 1, 2⟩, true⟩, some .beginSeq, [], 0, false, false⟩ =
      some ([Event.beginSeq, Event.scalar 'a', Event.endSeq],
        ⟨⟨[], false⟩, ⟨[], ⟨0, .done, 1, 4⟩, false⟩, some .endSeq, [], 0, true, false⟩, none) ∧
    YamlCursor.read_to_ec 20
        ⟨⟨[], false⟩, ⟨['a', ')'], ⟨1, .active, 1, 2⟩, true⟩, some .beginSeq, [], 0, false, false⟩ =
      some (⟨⟨[], false⟩, ⟨[], ⟨0, .done, 1, 4⟩, false⟩, some .beginSeq, [], 0, true, false⟩,
        [Event.beginSeq, Event.scalar 'a', Event.endSeq], none) ∧
    [Event.beginSeq, Event.scalar 'a', Event.endSeq] =
      [Event.beginSeq, Event.scalar 'a', Event.endSeq] :=
  ⟨by decide, by decide,
   pull_drain_agree 20 20 20
     ⟨⟨[], false⟩, ⟨['a', ')'], ⟨1, .active, 1, 2⟩, true⟩, some .beginSeq, [], 0, false, false⟩
     ⟨⟨[], false⟩, ⟨[], ⟨0, .done, 1, 4⟩, false⟩, some .endSeq, [], 0, true, false⟩
     ⟨⟨[], false⟩, ⟨[], ⟨0, .done, 1, 4⟩, false⟩, some .beginSeq, [], 0, true, false⟩
     [Event.beginSeq, Event.scalar 'a', Event.endSeq]
     [Event.beginSeq, Event.scalar 'a', Event.endSeq]
     (by decide) (by decide) (by decide) (by decide)⟩

/-- C2: every cursor operation offered in both forms (`next`, `read_to`,
`check_done`) has its throwing form equal to: invoke the non-throwing form,
and on a non-zero error code raise a structured error carrying that code plus
the current line and column; the cursor state (the observable side effects) is
exactly the non-throwing form's state in both outcomes. -/
theorem throwing_forms_delegate (f : Nat) (c : YamlCursor) :
    c.next_throwing f =
      (c.next_ec f).map (fun p =>
        (p.1, p.2.map fun e => SerErr.mk e p.1.parser.line p.1.parser.column)) ∧
    c.read_to_throwing f =
      (c.read_to_ec f).map (fun p =>
        (p.1, p.2.1, p.2.2.map fun e => SerErr.mk e p.1.parser.line p.1.parser.column)) ∧
    c.check_done_throwing f =
      (c.check_done_ec f).map (fun p =>
        (p.1, p.2.map fun e => SerErr.mk e p.1.parser.line p.1.parser.column)) := by
  refine ⟨?_, ?_, ?_⟩
  · unfold YamlCursor.next_throwing
    rcases hx : c.next_ec f with _ | ⟨c', r⟩ <;> simp
  · unfold YamlCursor.read_to_throwing
    rcases hx : c.read_to_ec f with _ | ⟨c', evs, r⟩ <;> simp
  · unfold YamlCursor.check_done_throwing
    rcases hx : c.check_done_ec f with _ | ⟨c', r⟩ <;> simp

/-- C6: `read_to(visitor)` first replays the already-cached current Event into
the external visitor and then runs the stepping loop with the visitor as the
direct sink; the event cache receives nothing during the drain, so each Event
reaches exactly one sink. -/
theorem drain_replay_single_sink (f : Nat) (c c' : YamlCursor)
    (evs : List Event) (r : Option Err)
    (h : c.read_to_ec f = some (c', evs, r)) :
    ∃ tail, evs = c.cached.toList ++ tail ∧
      c.read_next_visitor f = some (c', tail, r) ∧
      c'.cached = c.cached := by
  unfold YamlCursor.read_to_ec at h
  split at h
  · exact Option.noConfusion h
  · rename_i cv evsv rv hv
    simp only [Option.some.injEq, Prod.mk.injEq] at h
    obtain ⟨h1, h2, h3⟩ := h
    subst h1
    subst h3
    refine ⟨evsv, h2.symm, hv, ?_⟩
    have := (read_next_loop_pres f false _ _ _ _ hv).1
    simpa using this

/-- Witness for C6 at a concrete mid-stream state. -/
theorem drain_replay_single_sink_witness :
    ∃ tail, [Event.beginSeq, Event.scalar 'a', Event.endSeq] =
        (some Event.beginSeq).toList ++ tail ∧
      YamlCursor.read_next_visitor 20
          ⟨⟨[], false⟩, ⟨['a', ')'], ⟨1, .active, 1, 2⟩, true⟩, some .beginSeq, [], 0, false, false⟩ =
        some (⟨⟨[], false⟩, ⟨[], ⟨0, .done, 1, 4⟩, false⟩, some .beginSeq, [], 0, true, false⟩,
          tail, none) ∧
      (YamlCursor.cached
        ⟨⟨[], false⟩, ⟨[], ⟨0, .done, 1, 4⟩, false⟩, some .beginSeq, [], 0, true, false⟩) =
        some Event.beginSeq :=
  drain_replay_single_sink 20
    ⟨⟨[], false⟩, ⟨['a', ')'], ⟨1, .active, 1, 2⟩, true⟩, some .beginSeq, [], 0, false, false⟩
    ⟨⟨[], false⟩, ⟨[], ⟨0, .done, 1, 4⟩, false⟩, some .beginSeq, [], 0, true, false⟩
    [Event.beginSeq, Event.scalar 'a', Event.endSeq] none (by decide)

/-- C9: feeding the same input through the incremental-stream variant with any
two chunk lengths yields an identical Event sequence whenever both runs
succeed; reconfiguring the chunk length changes only the stored length (it
takes effect at the next refill, which reads at most the new length). -/
theorem chunking_invariance
    (f₁ g₁ f₂ g₂ : Nat) (s : List Char) (n₁ n₂ : Nat)
    (evs₁ evs₂ : List Event) (c₁ c₂ : YamlCursor)
    (h₁ : pullRun f₁ g₁ (stream_cursor_init s n₁) = some (evs₁, c₁, none))
    (h₂ : pullRun f₂ g₂ (stream_cursor_init s n₂) = some (evs₂, c₂, none)) :
    evs₁ = evs₂ ∧
    (∀ c : YamlCursor, ∀ n : Nat,
      (c.set_buffer_length n).buffer_length = n ∧
      (c.set_buffer_length n).parser = c.parser ∧
      (c.set_buffer_length n).buffer = c.buffer ∧
      (c.set_buffer_length n).source = c.source ∧
      (c.set_buffer_length n).cached = c.cached ∧
      (c.set_buffer_length n).eof_ = c.eof_ ∧
      (c.set_buffer_length n).begin_ = c.begin_ ∧
      ((c.set_buffer_length n).read_buffer).1.buffer = c.source.data.take n) := by
  constructor
  · have e₁ := pullRun_events f₁ g₁ _ c₁ evs₁ h₁ (fun _ => rfl)
    have e₂ := pullRun_events f₂ g₂ _ c₂ evs₂ h₂ (fun _ => rfl)
    rw [if_neg (fun hcon => Bool.noConfusion hcon : ¬ ((stream_cursor_init s n₁).done = true))] at e₁
    rw [if_neg (fun hcon => Bool.noConfusion hcon : ¬ ((stream_cursor_init s n₂).done = true))] at e₂
    rw [e₁, e₂, cursorSpec_stream_init, cursorSpec_stream_init]
    rfl
  · intro c n
    refine ⟨rfl, rfl, rfl, rfl, rfl, rfl, rfl, ?_⟩
    rw [read_buffer_eq]
    by_cases he : (c.source.data.take n).isEmpty
    · simp only [YamlCursor.set_buffer_length, he, reduceIte]
    · simp only [YamlCursor.set_buffer_length, he, Bool.false_eq_true, reduceIte]
      by_cases hb : c.begin_
      · simp only [hb, reduceIte]
        rcases hsb : skip_bom (c.source.data.take n) with e | off <;> rfl
      · simp only [hb, Bool.false_eq_true, reduceIte]

/-- Witness for C9: `(a)` with chunk lengths 1 and 4096. -/
theorem chunking_invariance_witness :
    pullRun 20 20 (stream_cursor_init ['(', 'a', ')'] 1) =
      some ([Event.beginSeq, Event.scalar 'a', Event.endSeq],
        ⟨⟨[], false⟩, ⟨[], ⟨0, .done, 1, 4⟩, false⟩, some .endSeq, [')'], 1, true, false⟩, none) ∧
    pullRun 20 20 (stream_cursor_init ['(', 'a', ')'] 4096) =
      some ([Event.beginSeq, Event.scalar 'a', Event.endSeq],
        ⟨⟨[], false⟩, ⟨[], ⟨0, .done, 1, 4⟩, false⟩, some .endSeq,
          ['(', 'a', ')'], 4096, true, false⟩, none) ∧
    ([Event.beginSeq, Event.scalar 'a', Event.endSeq] =
       [Event.beginSeq, Event.scalar 'a', Event.endSeq]) :=
  ⟨by decide, by decide,
   (chunking_invariance 20 20 20 20 ['(', 'a', ')'] 1 4096
     [Event.beginSeq, Event.scalar 'a', Event.endSeq]
     [Event.beginSeq, Event.scalar 'a', Event.endSeq]
     ⟨⟨[], false⟩, ⟨[], ⟨0, .done, 1, 4⟩, false⟩, some .endSeq, [')'], 1, true, false⟩
     ⟨⟨[], false⟩, ⟨[], ⟨0, .done, 1, 4⟩, false⟩, some .endSeq, ['(', 'a', ')'], 4096, true, false⟩
     (by decide) (by decide)).1⟩

/-- C8: an input with a valid leading encoding marker yields a cursor state
(and hence Event sequence) identical to the marker-stripped content alone, in
both the fixed-slice and incremental-stream variants; a malformed leading
marker makes construction report an encoding error with zero Events cached,
again in both variants (the stream variant hits it at the first refill). -/
theorem bom_invariance :
    (∀ (f : Nat) (t : List Char), skip_bom t = .ok 0 →
       fixed_cursor_ec f (bomChar :: t) = fixed_cursor_ec f t) ∧
    (∀ (f : Nat) (t : List Char),
       fixed_cursor_ec f (badBomChar :: t) =
         some ((fixed_cursor_init (badBomChar :: t)).1, some .encodingError) ∧
       (fixed_cursor_init (badBomChar :: t)).1.cached = none) ∧
    (∀ (f₁ g₁ f₂ g₂ : Nat) (t : List Char) (n₁ n₂ : Nat)
       (evs₁ evs₂ : List Event) (c₁ c₂ : YamlCursor), skip_bom t = .ok 0 →
       pullRun f₁ g₁ (stream_cursor_init (bomChar :: t) n₁) = some (evs₁, c₁, none) →
       pullRun f₂ g₂ (stream_cursor_init t n₂) = some (evs₂, c₂, none) →
       evs₁ = evs₂) ∧
    (∀ (f : Nat) (t : List Char) (c : YamlCursor) (r : Option Err),
       stream_cursor_ec (f + 1) (badBomChar :: t) = some (c, r) →
       r = some Err.encodingError ∧ c.cached = none) := by
  have hsbom : ∀ t : List Char, skip_bom (bomChar :: t) = Except.ok 1 := by
    intro t
    simp [skip_bom]
  have hsbad : ∀ t : List Char, skip_bom (badBomChar :: t) = Except.error Err.encodingError := by
    intro t
    simp only [skip_bom]
    rw [if_neg (by decide)]
    simp
  refine ⟨?_, ?_, ?_, ?_⟩
  · intro f t ht
    unfold fixed_cursor_ec fixed_cursor_init
    rw [hsbom t, ht]
    rfl
  · intro f t
    constructor
    · unfold fixed_cursor_ec fixed_cursor_init
      rw [hsbad t]
    · unfold fixed_cursor_init
      rw [hsbad t]
  · intro f₁ g₁ f₂ g₂ t n₁ n₂ evs₁ evs₂ c₁ c₂ ht h₁ h₂
    have e₁ := pullRun_events f₁ g₁ _ c₁ evs₁ h₁ (fun _ => rfl)
    have e₂ := pullRun_events f₂ g₂ _ c₂ evs₂ h₂ (fun _ => rfl)
    rw [if_neg (fun hcon => Bool.noConfusion hcon :
        ¬ ((stream_cursor_init (bomChar :: t) n₁).done = true))] at e₁
    rw [if_neg (fun hcon => Bool.noConfusion hcon :
        ¬ ((stream_cursor_init t n₂).done = true))] at e₂
    rw [e₁, e₂, cursorSpec_stream_init, cursorSpec_stream_init, hsbom t, ht]
    rfl
  · intro f t c r h
    have h' : (some (⟨⟨(badBomChar :: t).drop default_max_buffer_length, false⟩,
          ⟨[], initCore, false⟩, none, (badBomChar :: t).take default_max_buffer_length,
          default_max_buffer_length, false, true⟩,
        some Err.encodingError) : Option (YamlCursor × Option Err)) = some (c, r) := h
    simp only [Option.some.injEq, Prod.mk.injEq] at h'
    obtain ⟨hc, hr⟩ := h'
    subst hc hr
    exact ⟨rfl, rfl⟩

/-- Witness for C8 on content `a`: marker-prefixed versus plain for the
fixed-slice variant and for pull runs over the stream variant, and the
stream variant's malformed-marker outcome. -/
theorem bom_invariance_witness :
    skip_bom ['a'] = .ok 0 ∧
    fixed_cursor_ec 5 (bomChar :: ['a']) = fixed_cursor_ec 5 ['a'] ∧
    [Event.scalar 'a'] = [Event.scalar 'a'] ∧
    (some Err.encodingError = some Err.encodingError ∧
     YamlCursor.cached ⟨⟨[], false⟩, ⟨[], initCore, false⟩, none, [badBomChar, 'a'],
       default_max_buffer_length, false, true⟩ = none) :=
  ⟨rfl, bom_invariance.1 5 ['a'] rfl,
   bom_invariance.2.2.1 20 20 20 20 ['a'] 1 2 [Event.scalar 'a'] [Event.scalar 'a']
     ⟨⟨[], false⟩, ⟨[], ⟨0, .done, 1, 2⟩, false⟩, some (.scalar 'a'), ['a'], 1, true, false⟩
     ⟨⟨[], false⟩, ⟨[], ⟨0, .done, 1, 2⟩, false⟩, some (.scalar 'a'), ['a'], 2, true, false⟩
     rfl (by decide) (by decide),
   bom_invariance.2.2.2 0 ['a']
     ⟨⟨[], false⟩, ⟨[], initCore, false⟩, none, [badBomChar, 'a'],
       default_max_buffer_length, false, true⟩
     (some Err.encodingError) (by decide)⟩

/-- C3: every advance first resets the tokenizer's stop condition, then
repeats while the tokenizer is neither stopped nor globally done: when its
buffered input is exhausted it refills if the source is not at eof and sets
the eof flag otherwise, then lets the tokenizer consume buffered input and
deliver events to the active sink; any error code halts the loop immediately
with no further progress. -/
theorem advance_loop_structure :
    (∀ t : Tokenizer, (t.restart).stopRequested = false) ∧
    (∀ (f : Nat) (c : YamlCursor),
       c.read_next_visitor f =
         YamlCursor.read_next_loop f { c with parser := c.parser.restart } false) ∧
    (∀ t : Tokenizer, t.stopped = (t.stopRequested || t.done)) ∧
    (∀ c : YamlCursor, c.fillStep =
       (if c.parser.source_exhausted then
          (if !c.source.eof then c.read_buffer else ({ c with eof_ := true }, none))
        else (c, none))) ∧
    (∀ (f : Nat) (b : Bool) (c c1 : YamlCursor) (e : Err),
       c.parser.stopped = false → c.fillStep = (c1, some e) →
       YamlCursor.read_next_loop (f + 1) c b = some (c1, [], some e)) ∧
    (∀ (f : Nat) (b : Bool) (c c1 : YamlCursor) (p2 : Tokenizer)
       (evs1 : List Event) (e : Err),
       c.parser.stopped = false → c.fillStep = (c1, none) →
       c1.parser.parse_some b = (p2, evs1, some e) →
       YamlCursor.read_next_loop (f + 1) c b =
         some ({ c1 with parser := p2 }, evs1, some e)) ∧
    (∀ (f : Nat) (b : Bool) (c : YamlCursor), c.parser.stopped = true →
       YamlCursor.read_next_loop (f + 1) c b = some (c, [], none)) := by
  refine ⟨fun t => rfl, fun f c => rfl, fun t => rfl, fun c => rfl, ?_, ?_, ?_⟩
  · intro f b c c1 e hst hf
    simp only [YamlCursor.read_next_loop, hst, Bool.false_eq_true, reduceIte, hf]
  · intro f b c c1 p2 evs1 e hst hf hp
    simp only [YamlCursor.read_next_loop, hst, Bool.false_eq_true, reduceIte, hf, hp]
  · intro f b c hst
    simp [YamlCursor.read_next_loop, hst]

/-- Witness for C3: the loop at a stopped (done) tokenizer exits at once. -/
theorem advance_loop_structure_witness :
    YamlCursor.read_next_loop 3
        ⟨⟨[], false⟩, ⟨[], ⟨0, .done, 1, 1⟩, false⟩, none, [], 0, false, false⟩ true =
      some (⟨⟨[], false⟩, ⟨[], ⟨0, .done, 1, 1⟩, false⟩, none, [], 0, false, false⟩, [], none) :=
  advance_loop_structure.2.2.2.2.2.2 2 true
    ⟨⟨[], false⟩, ⟨[], ⟨0, .done, 1, 1⟩, false⟩, none, [], 0, false, false⟩ (by decide)

/-- C4: every refill replaces (never appends to) the buffer with at most the
configured chunk length of source units; an empty read sets the eof flag and
takes no further action, in particular the tokenizer keeps its old chunk; the
default configured length is 16384. -/
theorem read_buffer_refill_spec :
    (∀ c : YamlCursor,
       (c.read_buffer).1.buffer = c.source.data.take c.buffer_length_ ∧
       (c.read_buffer).1.buffer.length ≤ c.buffer_length_ ∧
       (c.source.data.take c.buffer_length_ = [] →
          (c.read_buffer).1.parser = c.parser ∧
          (c.read_buffer).1.eof_ = true ∧
          (c.read_buffer).2 = none)) ∧
    default_max_buffer_length = 16384 ∧
    (∀ s : List Char,
       (stream_cursor_init s default_max_buffer_length).buffer_length =
         default_max_buffer_length) := by
  refine ⟨?_, rfl, fun s => rfl⟩
  intro c
  rw [read_buffer_eq]
  by_cases he : (c.source.data.take c.buffer_length_).isEmpty
  · have he' : c.source.data.take c.buffer_length_ = [] := List.isEmpty_iff.mp he
    simp only [he, reduceIte]
    exact ⟨by trivial, by rw [he']; simp, fun _ => ⟨by trivial, by trivial, by trivial⟩⟩
  · simp only [he, Bool.false_eq_true, reduceIte]
    have hne : ¬ (c.source.data.take c.buffer_length_ = []) := by
      intro hcon
      rw [hcon] at he
      simp at he
    have hlen : (c.source.data.take c.buffer_length_).length ≤ c.buffer_length_ := by
      rw [List.length_take]
      exact min_le_left _ _
    by_cases hb : c.begin_
    · simp only [hb, reduceIte]
      rcases hsb : skip_bom (c.source.data.take c.buffer_length_) with e | off
      · exact ⟨by trivial, hlen, fun hcon => absurd hcon hne⟩
      · exact ⟨by trivial, hlen, fun hcon => absurd hcon hne⟩
    · simp only [hb, Bool.false_eq_true, reduceIte]
      exact ⟨by trivial, hlen, fun hcon => absurd hcon hne⟩

/-- Witness for C4: a zero-yield refill sets eof and leaves the tokenizer
untouched. -/
theorem read_buffer_refill_spec_witness :
    ((stream_cursor_init [] 4).read_buffer).1.parser = (stream_cursor_init [] 4).parser ∧
    ((stream_cursor_init [] 4).read_buffer).1.eof_ = true ∧
    ((stream_cursor_init [] 4).read_buffer).2 = none :=
  (read_buffer_refill_spec.1 (stream_cursor_init [] 4)).2.2 (by decide)

/-- C5 counterexample: scanning a first chunk whose leading marker is
malformed reports the encoding error but does NOT clear the one-shot
detection flag, contradicting "cleared regardless of the scan's outcome". -/
theorem encoding_flag_counterexample :
    ((stream_cursor_init [badBomChar, 'a'] 4).read_buffer).2 = some Err.encodingError ∧
    ((stream_cursor_init [badBomChar, 'a'] 4).read_buffer).1.begin_ = true := by
  decide

/-- C5 (amended): the detection flag is cleared by the first scan that
succeeds (valid or absent marker, on a nonempty first chunk); once false it
stays false and no later refill ever scans or reports an encoding error
again; a scan that reports a malformed marker leaves the flag set. -/
theorem encoding_flag_one_shot :
    (∀ c c' : YamlCursor, c.read_buffer = (c', none) → c.begin_ = true →
       c.source.data.take c.buffer_length_ ≠ [] → c'.begin_ = false) ∧
    (∀ c : YamlCursor, c.begin_ = false →
       (c.read_buffer).2 = none ∧ (c.read_buffer).1.begin_ = false) ∧
    (∀ (c c' : YamlCursor) (e : Err), c.read_buffer = (c', some e) →
       c'.begin_ = c.begin_ ∧ c'.parser = c.parser) := by
  refine ⟨?_, ?_, ?_⟩
  · intro c c' h hb hne
    rw [read_buffer_eq] at h
    by_cases he : (c.source.data.take c.buffer_length_).isEmpty
    · exact absurd (List.isEmpty_iff.mp he) hne
    · simp only [he, Bool.false_eq_true, reduceIte, hb, reduceIte] at h
      rcases hsb : skip_bom (c.source.data.take c.buffer_length_) with e | off
      · rw [hsb] at h
        simp at h
      · rw [hsb] at h
        simp only [Prod.mk.injEq] at h
        rw [← h.1]
  · intro c hb
    rw [read_buffer_eq]
    by_cases he : (c.source.data.take c.buffer_length_).isEmpty
    · simp only [he, reduceIte]
      exact ⟨by trivial, hb⟩
    · simp only [he, Bool.false_eq_true, reduceIte, hb, reduceIte]
      exact ⟨by trivial, by trivial⟩
  · intro c c' e h
    rw [read_buffer_eq] at h
    by_cases he : (c.source.data.take c.buffer_length_).isEmpty
    · simp only [he, reduceIte] at h
      simp at h
    · simp only [he, Bool.false_eq_true, reduceIte] at h
      by_cases hb : c.begin_
      · simp only [hb, reduceIte] at h
        rcases hsb : skip_bom (c.source.data.take c.buffer_length_) with e0 | off
        · rw [hsb] at h
          simp only [Prod.mk.injEq, Option.some.injEq] at h
          rw [← h.1]
          exact ⟨by simp [hb], by trivial⟩
        · rw [hsb] at h
          simp at h
      · simp only [hb, Bool.false_eq_true, reduceIte] at h
        simp at h

/-- Witness for C5 (amended): a successful first scan clears the flag. -/
theorem encoding_flag_one_shot_witness :
    ((stream_cursor_init ['a'] 4).read_buffer).1.begin_ = false ∧
    ((stream_cursor_init ['a'] 4).read_buffer).2 = none :=
  ⟨encoding_flag_one_shot.1 (stream_cursor_init ['a'] 4)
     ((stream_cursor_init ['a'] 4).read_buffer).1 (by decide) (by decide) (by decide),
   by decide⟩

/-- C7: `check_done` fails immediately with a source error whenever the
source reports a fault; with the eof flag already set it delegates to the
tokenizer's terminal-state check; otherwise it runs the refill/validate loop
(refill while exhausted and the source is not at eof, set the eof flag at
source eof, validate whenever buffered input remains); a second top-level
value yields a trailing-content error while trailing whitespace succeeds. -/
theorem check_done_spec :
    (∀ (f : Nat) (c : YamlCursor), c.source.is_error = true →
       c.check_done_ec f = some (c, some .sourceError)) ∧
    (∀ (f : Nat) (c : YamlCursor), c.source.is_error = false → c.eof_ = true →
       c.check_done_ec f =
         some ({ c with parser := (c.parser.check_done).1 }, (c.parser.check_done).2)) ∧
    (∀ (f : Nat) (c : YamlCursor), c.source.is_error = false → c.eof_ = false →
       c.check_done_ec f = c.check_done_loop f) ∧
    (∀ (f : Nat) (c : YamlCursor),
       c.check_done_loop (f + 1) =
         (if c.eof_ then some (c, none)
          else
            match c.fillStep with
            | (c1, some e) => some (c1, some e)
            | (c1, none) =>
              if c1.eof_ then YamlCursor.check_done_loop f c1
              else
                match c1.parser.check_done with
                | (p2, some e) => some ({ c1 with parser := p2 }, some e)
                | (p2, none) => YamlCursor.check_done_loop f { c1 with parser := p2 })) ∧
    runAndCheck ['a', ' ', 'b'] = some (some Err.trailingContent) ∧
    runAndCheck ['a', ' ', ' '] = some none := by
  refine ⟨?_, ?_, ?_, ?_, by decide, by decide⟩
  · intro f c h
    simp [YamlCursor.check_done_ec, h]
  · intro f c h1 h2
    simp [YamlCursor.check_done_ec, h1, h2]
  · intro f c h1 h2
    simp [YamlCursor.check_done_ec, h1, h2]
  · intro f c
    rfl

/-- Witness for C7: immediate failure on a faulted source, and delegation at
eof. -/
theorem check_done_spec_witness :
    YamlCursor.check_done_ec 5
        ⟨⟨['x'], true⟩, initTok, none, [], 4, false, false⟩ =
      some (⟨⟨['x'], true⟩, initTok, none, [], 4, false, false⟩, some Err.sourceError) ∧
    YamlCursor.check_done_ec 5
        ⟨⟨[], false⟩, ⟨[], ⟨0, .done, 1, 2⟩, false⟩, none, [], 0, true, false⟩ =
      some (⟨⟨[], false⟩, ⟨[], ⟨0, .done, 1, 2⟩, false⟩, none, [], 0, true, false⟩, none) :=
  ⟨check_done_spec.1 5 ⟨⟨['x'], true⟩, initTok, none, [], 4, false, false⟩ rfl,
   check_done_spec.2.1 5 ⟨⟨[], false⟩, ⟨[], ⟨0, .done, 1, 2⟩, false⟩, none, [], 0, true, false⟩
     rfl rfl⟩

theorem fixed_cursor_init_core (s : List Char) :
    (fixed_cursor_init s).1.buffer_length_ = 0 ∧
    (fixed_cursor_init s).1.buffer = [] ∧
    (fixed_cursor_init s).1.source.data = [] := by
  unfold fixed_cursor_init
  rcases hsb : skip_bom s with e | off <;> exact ⟨rfl, rfl, rfl⟩

/-- C10: the fixed-slice constructor sets a buffer length of 0 (not the
incremental default 16384), skips the leading encoding marker directly on the
materialized slice, and leaves the internal byte buffer empty, also after the
priming advance; the incremental-stream constructor reports the 16384
default. -/
theorem fixed_slice_construction :
    (∀ s : List Char, (fixed_cursor_init s).1.buffer_length = 0 ∧
       (fixed_cursor_init s).1.buffer = []) ∧
    (∀ (s : List Char) (off : Nat), skip_bom s = .ok off →
       (fixed_cursor_init s).1.parser.chunk = s.drop off) ∧
    (∀ (f : Nat) (s : List Char) (c : YamlCursor) (r : Option Err),
       fixed_cursor_ec f s = some (c, r) →
       c.buffer_length = 0 ∧ c.buffer = []) ∧
    (∀ s : List Char,
       (stream_cursor_init s default_max_buffer_length).buffer_length = 16384) ∧
    (∀ (f : Nat) (s : List Char) (c : YamlCursor) (r : Option Err),
       stream_cursor_ec f s = some (c, r) →
       c.buffer_length = default_max_buffer_length) := by
  refine ⟨?_, ?_, ?_, fun s => rfl, ?_⟩
  · intro s
    exact ⟨(fixed_cursor_init_core s).1, (fixed_cursor_init_core s).2.1⟩
  · intro s off hsb
    unfold fixed_cursor_init
    rw [hsb]
    rfl
  · intro f s c r h
    unfold fixed_cursor_ec at h
    have hcore := fixed_cursor_init_core s
    rcases hfi : fixed_cursor_init s with ⟨c0, r0⟩
    rw [hfi] at h
    rw [hfi] at hcore
    cases r0 with
    | some e =>
      have h' : (some (c0, some e) : Option (YamlCursor × Option Err)) = some (c, r) := h
      simp only [Option.some.injEq, Prod.mk.injEq] at h'
      obtain ⟨hc, hr⟩ := h'
      subst hc
      exact ⟨hcore.1, hcore.2.1⟩
    | none =>
      have h' : (if c0.done then some (c0, none) else c0.next_ec f) = some (c, r) := h
      split at h'
      · simp only [Option.some.injEq, Prod.mk.injEq] at h'
        obtain ⟨hc, hr⟩ := h'
        subst hc
        exact ⟨hcore.1, hcore.2.1⟩
      · unfold YamlCursor.next_ec YamlCursor.read_next_ec at h'
        split at h'
        · exact Option.noConfusion h'
        · rename_i cL evsL rL hloop
          simp only [Option.some.injEq, Prod.mk.injEq] at h'
          obtain ⟨hc, hr⟩ := h'
          subst hc
          have hpres := read_next_loop_pres f true _ cL evsL rL hloop
          constructor
          · show cL.buffer_length_ = 0
            rw [hpres.2.1]
            exact hcore.1
          · show cL.buffer = []
            exact hpres.2.2.1 hcore.1 hcore.2.1
  · intro f s c r h
    unfold stream_cursor_ec at h
    rw [if_neg (fun hcon => Bool.noConfusion hcon :
        ¬ ((stream_cursor_init s default_max_buffer_length).done = true))] at h
    unfold YamlCursor.next_ec YamlCursor.read_next_ec at h
    split at h
    · exact Option.noConfusion h
    · rename_i cL evsL rL hloop
      simp only [Option.some.injEq, Prod.mk.injEq] at h
      obtain ⟨hc, hr⟩ := h
      subst hc
      have hpres := read_next_loop_pres f true _ cL evsL rL hloop
      show cL.buffer_length_ = default_max_buffer_length
      rw [hpres.2.1]
      rfl

/-- Witness for C10: constructing from the slice `a` keeps the buffer empty
and the buffer length 0. -/
theorem fixed_slice_construction_witness :
    YamlCursor.buffer_length
        ⟨⟨[], false⟩, ⟨[], ⟨0, .completed, 1, 2⟩, true⟩, some (.scalar 'a'), [], 0, false, false⟩ = 0 ∧
    YamlCursor.buffer
        ⟨⟨[], false⟩, ⟨[], ⟨0, .completed, 1, 2⟩, true⟩, some (.scalar 'a'), [], 0, false, false⟩ = [] :=
  fixed_slice_construction.2.2.1 5 ['a']
    ⟨⟨[], false⟩, ⟨[], ⟨0, .completed, 1, 2⟩, true⟩, some (.scalar 'a'), [], 0, false, false⟩
    none (by decide)
